import Mathlib

/-!
Verification of the run-state polling/reporting contract of the data-flow
service described by this repository's notebook ("Create and run a data flow
with Watson Data APIs"), and of the quantum adder circuit and outcome tally
appearing in the same notebook.

The run-state machine, `getStatus`, `waitForTerminal`, `cancel`, `submit`,
`getLogs` and the poller's retry policy are executed by the external
data-flow service or belong to the client wrapper the specification
describes; the notebook only documents them.  Those definitions are
therefore modelled from the specification's words, as their doc comments
state.  The quantum circuit (cells 4-8) and the outcome-frequency tally
(cell 12) are code of the repository and are embedded directly.
-/

namespace DataFlow

/-- The `state` attribute of a data flow run (notebook section 3.2). -/
inductive RunState where
  | starting
  | queued
  | running
  | finished
  | error
  | stopping
  | stopped
deriving DecidableEq, Repr, Fintype

open RunState

/-- The states of completion (notebook section 3.2): finished, error,
stopped.  No transition leaves them. -/
def isTerminal : RunState → Bool
  | finished => true
  | error => true
  | stopped => true
  | _ => false

/-- Modelled from the spec: the valid transitions of the run state machine.
The engine that drives the state machine is external to the repository; the
notebook's section 3.2 only documents its life cycle. -/
def validTransition : RunState → RunState → Bool
  | starting, queued => true
  | starting, error => true
  | queued, running => true
  | queued, error => true
  | running, finished => true
  | running, error => true
  | running, stopping => true
  | stopping, stopped => true
  | _, _ => false

/-- The eight documented transitions, as a list of pairs. -/
def transitionList : List (RunState × RunState) :=
  [(starting, queued), (starting, error),
   (queued, running), (queued, error),
   (running, finished), (running, error), (running, stopping),
   (stopping, stopped)]

/-- Between two successive polls of one run the state either stays put or
makes one valid transition. -/
def observedStep (s t : RunState) : Bool :=
  s = t || validTransition s t

/-- A finite sequence of states observed by successively polling one run. -/
def isObservedTrace : List RunState → Bool
  | [] => true
  | [_] => true
  | s :: t :: rest => observedStep s t && isObservedTrace (t :: rest)

theorem terminal_no_transition (a b : RunState) (ha : isTerminal a = true) :
    validTransition a b = false := by
  cases a <;> cases b <;> first | rfl | exact absurd ha (by decide)

theorem terminal_trace_constant (s : RunState) (rest : List RunState)
    (hs : isTerminal s = true) (h : isObservedTrace (s :: rest) = true) :
    ∀ t ∈ rest, t = s := by
  induction rest with
  | nil => intro t ht; cases ht
  | cons u rest ih =>
      intro t ht
      have hstep : observedStep s u = true ∧ isObservedTrace (u :: rest) = true := by
        simpa [isObservedTrace, Bool.and_eq_true] using h
      have hor : s = u ∨ validTransition s u = true := by
        simpa [observedStep] using hstep.1
      have hus : u = s := by
        rcases hor with h1 | h2
        · exact h1.symm
        · exact absurd h2 (by simp [terminal_no_transition s u hs])
      rcases List.mem_cons.mp ht with h1 | h2
      · exact h1.trans hus
      · exact ih (by simpa [hus] using hstep.2) t h2

/-- C1: the run state machine admits exactly the eight documented
transitions (starting→queued, starting→error, queued→running, queued→error,
running→finished, running→error, running→stopping, stopping→stopped); no
transition leaves a terminal state; and along any observed state sequence of
one run, once a terminal state is reached every later observation returns
that same state. -/
theorem runStateMachine_transitions (s : RunState) (rest : List RunState)
    (h : isObservedTrace (s :: rest) = true) (hs : isTerminal s = true) :
    (∀ a b, validTransition a b = true ↔ (a, b) ∈ transitionList) ∧
    (∀ a b, isTerminal a = true → validTransition a b = false) ∧
    (∀ t ∈ rest, t = s) := by
  refine ⟨by decide, terminal_no_transition, ?_⟩
  exact terminal_trace_constant s rest hs h

/-- Witness for C1 at the concrete observed trace
finished, finished, finished. -/
theorem runStateMachine_transitions_witness :
    (∀ a b, validTransition a b = true ↔ (a, b) ∈ transitionList) ∧
    (∀ a b, isTerminal a = true → validTransition a b = false) ∧
    (∀ t ∈ [RunState.finished, RunState.finished], t = RunState.finished) :=
  runStateMachine_transitions RunState.finished
    [RunState.finished, RunState.finished] (by decide) (by decide)

/-- The requests the modelled polling client can send to the service about a
run: a status poll or a cancellation. -/
inductive ClientAction where
  | pollRun (k : ℕ)
  | cancelRun
deriving DecidableEq, Repr

/-- Modelled from the spec: the polling loop of `waitForTerminal`.  `obs k`
is the state `getStatus` reports at the k-th poll, `fuel` is how many polls
still fit in the budget.  It returns the terminal state it saw, or
`Except.error ()` for a `TimeoutError`, together with every request the loop
issued to the service. -/
def waitAux (obs : ℕ → RunState) :
    ℕ → ℕ → Except Unit RunState × List ClientAction
  | _, 0 => (Except.error (), [])
  | k, fuel + 1 =>
      if isTerminal (obs k) then
        (Except.ok (obs k), [ClientAction.pollRun k])
      else
        let r := waitAux obs (k + 1) fuel
        (r.1, ClientAction.pollRun k :: r.2)

/-- Modelled from the spec: `waitForTerminal(runId, pollInterval, timeout)`
repeatedly invokes `getStatus` every `pollInterval` until a state of
completion is observed or the timeout elapses; `timeout / pollInterval + 1`
polls fit in the budget. -/
def waitForTerminal (obs : ℕ → RunState) (pollInterval timeout : ℕ) :
    Except Unit RunState × List ClientAction :=
  waitAux obs 0 (timeout / pollInterval + 1)

theorem waitAux_ok_terminal (obs : ℕ → RunState) :
    ∀ fuel k s, (waitAux obs k fuel).1 = Except.ok s → isTerminal s = true := by
  intro fuel
  induction fuel with
  | zero => intro k s h; exact absurd h (by simp [waitAux])
  | succ fuel ih =>
      intro k s h
      by_cases ht : isTerminal (obs k) = true
      · have : (Except.ok (obs k) : Except Unit RunState) = Except.ok s := by
          simpa [waitAux, ht] using h
        cases this; exact ht
      · exact ih (k + 1) s (by simpa [waitAux, ht] using h)

theorem waitAux_polls_only (obs : ℕ → RunState) :
    ∀ fuel k a, a ∈ (waitAux obs k fuel).2 → ∃ i, a = ClientAction.pollRun i := by
  intro fuel
  induction fuel with
  | zero => intro k a h; exact absurd h (by simp [waitAux])
  | succ fuel ih =>
      intro k a h
      by_cases ht : isTerminal (obs k) = true
      · have : a ∈ [ClientAction.pollRun k] := by simpa [waitAux, ht] using h
        exact ⟨k, by simpa using this⟩
      · have : a = ClientAction.pollRun k ∨ a ∈ (waitAux obs (k + 1) fuel).2 := by
          simpa [waitAux, ht] using h
        rcases this with h1 | h2
        · exact ⟨k, h1⟩
        · exact ih (k + 1) a h2

/-- C2: for every run, poll interval and timeout, `waitForTerminal` either
raises a timeout or returns a state of completion (finished, error or
stopped), never one of starting, queued, running, stopping; and it only ever
polls the run — in particular, on a timeout the underlying run is not
cancelled. -/
theorem waitForTerminal_spec (obs : ℕ → RunState) (pollInterval timeout : ℕ) :
    (∀ s, (waitForTerminal obs pollInterval timeout).1 = Except.ok s →
        isTerminal s = true ∧
        s ∉ [RunState.starting, RunState.queued, RunState.running,
             RunState.stopping]) ∧
    ∀ a ∈ (waitForTerminal obs pollInterval timeout).2,
        a ≠ ClientAction.cancelRun := by
  constructor
  · intro s h
    have ht := waitAux_ok_terminal obs (timeout / pollInterval + 1) 0 s h
    refine ⟨ht, ?_⟩
    cases s <;> revert ht <;> decide
  · intro a ha
    rcases waitAux_polls_only obs (timeout / pollInterval + 1) 0 a ha with ⟨i, hi⟩
    simp [hi]

/-- A run status as `getStatus` returns it: the state together with the
optional `error` attribute of the run asset. -/
structure Status where
  state : RunState
  errAttr : Option String
deriving DecidableEq, Repr

/-- Modelled from the spec (notebook section 3.5): the general message set
in the `error` attribute when no concise description is available from the
engine. -/
def genericErrorMessage : String :=
  "The run did not complete. No further detail is available from the engine."

/-- Modelled from the spec: how the service populates the status read by
`getStatus` from the run's state and the error detail the engine supplied
(if any).  The `error` attribute is set exactly when the run failed, and a
generic message is substituted when the engine gave no (or an empty)
detail, so it is never left unset on a failed run. -/
def getStatus (state : RunState) (engineDetail : Option String) : Status :=
  if state = RunState.error then
    { state := state
      errAttr := some (match engineDetail with
        | some d => if d = "" then genericErrorMessage else d
        | none => genericErrorMessage) }
  else
    { state := state, errAttr := none }

/-- C3: for every run, if the status returned by `getStatus` has state
`error` then its `error` attribute holds a non-empty message (the generic
fallback when the engine supplied no detail); and the `error` attribute is
present exactly when the state is the terminal-failed state. -/
theorem getStatus_error_populated (state : RunState)
    (engineDetail : Option String) :
    ((getStatus state engineDetail).state = RunState.error →
      ∃ m, (getStatus state engineDetail).errAttr = some m ∧ m ≠ "") ∧
    ((getStatus state engineDetail).errAttr ≠ none ↔
      (getStatus state engineDetail).state = RunState.error) := by
  by_cases hs : state = RunState.error
  · subst hs
    constructor
    · intro _
      cases engineDetail with
      | none => exact ⟨genericErrorMessage, by simp [getStatus], by decide⟩
      | some d =>
          by_cases hd : d = ""
          · exact ⟨genericErrorMessage, by simp [getStatus, hd], by decide⟩
          · exact ⟨d, by simp [getStatus, hd], hd⟩
    · simp [getStatus]
  · constructor
    · intro h
      simp [getStatus, hs] at h
    · simp [getStatus, hs]

/-- Modelled from the spec: what the service validates when a run is
submitted — whether the referenced pipeline exists and whether the
connections/assets that pipeline references all exist. -/
structure Catalog where
  pipelineExists : String → Bool
  referencesExist : String → Bool

/-- The outcome of a submission: the new run's observed state sequence and
whether submission failed with a `SubmissionError`. -/
structure SubmitResult where
  observed : List RunState
  failedSubmission : Bool
deriving DecidableEq, Repr

/-- Modelled from the spec: `submit(pipelineId)` returns immediately with a
run in state `starting`; when the referenced pipeline or its referenced
connections/assets do not exist, submission fails and the run short-circuits
directly from `starting` to `error` with no queued or running phase. -/
def submit (cat : Catalog) (pipelineId : String) : SubmitResult :=
  if cat.pipelineExists pipelineId && cat.referencesExist pipelineId then
    { observed := [RunState.starting], failedSubmission := false }
  else
    { observed := [RunState.starting, RunState.error],
      failedSubmission := true }

/-- C5: for a valid pipeline, `submit` returns a run whose initial observed
state is `starting` and no `SubmissionError`; when the pipeline or its
referenced connections/assets do not exist, `submit` fails with a
`SubmissionError` observed as the run transitioning directly
starting → error — a valid trace with no queued or running phase. -/
theorem submit_spec (cat : Catalog) (pipelineId : String) :
    ((cat.pipelineExists pipelineId && cat.referencesExist pipelineId) = true →
      (submit cat pipelineId).failedSubmission = false ∧
      (submit cat pipelineId).observed = [RunState.starting]) ∧
    ((cat.pipelineExists pipelineId && cat.referencesExist pipelineId) = false →
      (submit cat pipelineId).failedSubmission = true ∧
      (submit cat pipelineId).observed =
        [RunState.starting, RunState.error] ∧
      isObservedTrace (submit cat pipelineId).observed = true ∧
      RunState.queued ∉ (submit cat pipelineId).observed ∧
      RunState.running ∉ (submit cat pipelineId).observed) := by
  constructor
  · intro h
    simp [submit, h]
  · intro h
    refine ⟨by simp [submit, h], by simp [submit, h], ?_, ?_, ?_⟩
    · simp [submit, h]; decide
    · simp [submit, h]
    · simp [submit, h]

/-- Modelled from the spec: `cancel(runId)` requests a transition toward
stopping → stopped; on a run already in a state of completion it is a no-op
and not an error (`Except.error` would model an error response; `cancel`
never produces one). -/
def cancel (s : RunState) : Except Unit RunState :=
  if isTerminal s then Except.ok s
  else Except.ok RunState.stopping

/-- C6: `cancel` is idempotent on a terminal run: on a run that has already
reached `stopped`, a (second) call to `cancel` produces no error and leaves
the run state unchanged, and so does every further call. -/
theorem cancel_idempotent_on_stopped (s : RunState)
    (h : s = RunState.stopped) :
    cancel s = Except.ok s ∧
    ∀ s₂, cancel s = Except.ok s₂ → s₂ = s ∧ cancel s₂ = Except.ok s₂ := by
  subst h
  refine ⟨rfl, ?_⟩
  intro s₂ h₂
  have hs : s₂ = RunState.stopped := by
    have : (Except.ok RunState.stopped : Except Unit RunState) = Except.ok s₂ := by
      simpa [cancel, isTerminal] using h₂
    cases this; rfl
  subst hs
  exact ⟨rfl, rfl⟩

/-- Witness for C6 at the concrete run state `stopped`. -/
theorem cancel_idempotent_on_stopped_witness :
    cancel RunState.stopped = Except.ok RunState.stopped ∧
    ∀ s₂, cancel RunState.stopped = Except.ok s₂ →
      s₂ = RunState.stopped ∧ cancel s₂ = Except.ok s₂ :=
  cancel_idempotent_on_stopped RunState.stopped rfl

/-- One entry of a run's log, with the fields of the service's `logs`
response (notebook section 3.5): date, event_id, message_text, type. -/
structure LogEntry where
  date : String
  eventId : ℕ
  messageText : String
  entryType : String
deriving DecidableEq, Repr

/-- Modelled from the spec: `getLogs(runId, offset, limit)` returns the
slice `[offset, offset + limit)` of the run's ordered log sequence. -/
def getLogs (logs : List LogEntry) (offset limit : ℕ) : List LogEntry :=
  (logs.drop offset).take limit

theorem getLogs_join_take (logs : List LogEntry) (limit : ℕ) :
    ∀ n, ((List.range n).map fun i => getLogs logs (i * limit) limit).flatten
      = logs.take (n * limit) := by
  intro n
  induction n with
  | zero => simp
  | succ n ih =>
      rw [List.range_succ, List.map_append, List.flatten_append]
      simp only [List.map_cons, List.map_nil, List.flatten_cons,
        List.flatten_nil, List.append_nil, ih]
      rw [Nat.succ_mul, List.take_add]
      rfl

/-- C4: for every run and page size limit > 0, concatenating the pages
`getLogs(runId, 0, limit)`, `getLogs(runId, limit, limit)`, ... (any number
of pages covering the log) equals the single sequence returned by
`getLogs(runId, 0, total_count)`; retrieval may resume from any offset, the
full sequence being any already-read prefix followed by the page starting
at its end; and the stable order by event sequence number is preserved on
every page. -/
theorem getLogs_pagination (logs : List LogEntry) (limit n : ℕ)
    (_hlim : 0 < limit) (hn : logs.length ≤ n * limit) :
    ((List.range n).map fun i => getLogs logs (i * limit) limit).flatten
      = getLogs logs 0 logs.length ∧
    (∀ offset, getLogs logs 0 logs.length =
      getLogs logs 0 offset ++ getLogs logs offset (logs.length - offset)) ∧
    (List.Pairwise (fun a b => a.eventId ≤ b.eventId) logs →
      ∀ offset k,
        List.Pairwise (fun a b => a.eventId ≤ b.eventId)
          (getLogs logs offset k)) := by
  refine ⟨?_, ?_, ?_⟩
  · rw [getLogs_join_take logs limit n, List.take_of_length_le hn]
    simp [getLogs]
  · intro offset
    have h1 : getLogs logs offset (logs.length - offset) = logs.drop offset :=
      List.take_of_length_le (by simp [getLogs])
    have h0 : getLogs logs 0 offset = logs.take offset := by
      simp [getLogs]
    have hfull : getLogs logs 0 logs.length = logs := by
      simp [getLogs]
    rw [hfull, h0, h1, List.take_append_drop]
  · intro hsorted offset k
    exact hsorted.sublist (((logs.drop offset).take_sublist k).trans
      (logs.drop_sublist offset))

/-- A concrete three-entry log, shaped like the notebook's logs response. -/
def sampleLogs : List LogEntry :=
  [⟨"2018-01-31T12:10:15.000Z", 0, "Job requested", "info"⟩,
   ⟨"2018-01-31T12:10:15.000Z", 1, "Job submitted", "info"⟩,
   ⟨"2018-01-31T12:10:15.000Z", 2, "Job execution started", "info"⟩]

/-- Witness for C4 at the concrete three-entry log paged with limit 2. -/
theorem getLogs_pagination_witness :
    (((List.range 2).map fun i => getLogs sampleLogs (i * 2) 2).flatten
      = getLogs sampleLogs 0 sampleLogs.length) ∧
    (∀ offset, getLogs sampleLogs 0 sampleLogs.length =
      getLogs sampleLogs 0 offset ++
      getLogs sampleLogs offset (sampleLogs.length - offset)) ∧
    (List.Pairwise (fun a b => a.eventId ≤ b.eventId) sampleLogs →
      ∀ offset k,
        List.Pairwise (fun a b => a.eventId ≤ b.eventId)
          (getLogs sampleLogs offset k)) :=
  getLogs_pagination sampleLogs 2 2 (by decide) (by decide)

/-- Modelled from the spec: one poll of the run's status with retries on
transient network-level I/O failure.  `io j` is what the j-th attempt
produced: `none` for a transient I/O failure, `some st` for the status the
service returned.  `backoff` is the schedule of delays between attempts.
The result pairs the outcome (`Except.error ()` for a `TransientIOError`
surfaced after retries exhaust) with how many attempts were made and the
delays waited between them. -/
def pollWithRetry (io : ℕ → Option Status) (backoff : ℕ → ℕ) :
    ℕ → ℕ → Except Unit Status × ℕ × List ℕ
  | attempt, 0 =>
      (match io attempt with
        | some st => Except.ok st
        | none => Except.error (), attempt + 1, [])
  | attempt, retriesLeft + 1 =>
      match io attempt with
      | some st => (Except.ok st, attempt + 1, [])
      | none =>
          let r := pollWithRetry io backoff (attempt + 1) retriesLeft
          (r.1, r.2.1, backoff attempt :: r.2.2)

/-- Modelled from the spec: a single poll of `getStatus`, retried with
backoff at most `maxRetries` further times on transient I/O failure. -/
def pollStatus (io : ℕ → Option Status) (backoff : ℕ → ℕ)
    (maxRetries : ℕ) : Except Unit Status × ℕ × List ℕ :=
  pollWithRetry io backoff 0 maxRetries

theorem pollWithRetry_found (io : ℕ → Option Status) (backoff : ℕ → ℕ) :
    ∀ r a j st, j ≤ r → (∀ i, i < j → io (a + i) = none) →
      io (a + j) = some st →
      pollWithRetry io backoff a r =
        (Except.ok st, a + j + 1, (List.range j).map fun i => backoff (a + i)) := by
  intro r
  induction r with
  | zero =>
      intro a j st hj hbefore hst
      have hj0 : j = 0 := Nat.le_zero.mp hj
      subst hj0
      simp only [Nat.add_zero] at hst
      simp [pollWithRetry, hst]
  | succ r ih =>
      intro a j st hj hbefore hst
      cases j with
      | zero =>
          simp only [Nat.add_zero] at hst
          simp [pollWithRetry, hst]
      | succ j =>
          have h0 : io a = none := by simpa using hbefore 0 (Nat.succ_pos j)
          have hrec := ih (a + 1) j st (Nat.le_of_succ_le_succ hj)
            (fun i hi => by
              have := hbefore (i + 1) (Nat.succ_lt_succ hi)
              simpa [Nat.add_assoc, Nat.add_comm 1 i] using this)
            (by simpa [Nat.add_assoc, Nat.add_comm 1 j] using hst)
          simp only [pollWithRetry, h0]
          rw [hrec]
          simp only [Prod.mk.injEq]
          refine ⟨by trivial, by omega, ?_⟩
          rw [List.range_succ_eq_map, List.map_cons, List.map_map]
          simp [Function.comp, Nat.succ_eq_add_one, Nat.add_assoc,
            Nat.add_comm 1]

theorem pollWithRetry_exhausted (io : ℕ → Option Status) (backoff : ℕ → ℕ) :
    ∀ r a, (∀ j, j ≤ r → io (a + j) = none) →
      (pollWithRetry io backoff a r).1 = Except.error () := by
  intro r
  induction r with
  | zero =>
      intro a hall
      have h0 : io a = none := by simpa using hall 0 (Nat.le_refl 0)
      simp [pollWithRetry, h0]
  | succ r ih =>
      intro a hall
      have h0 : io a = none := by simpa using hall 0 (Nat.zero_le _)
      have hrec := ih (a + 1) (fun j hj => by
        have := hall (j + 1) (Nat.succ_le_succ hj)
        simpa [Nat.add_assoc, Nat.add_comm 1 j] using this)
      simp [pollWithRetry, h0, hrec]

/-- C7: the poller retries transient network-level I/O failures of a single
poll with the backoff schedule, surfacing a `TransientIOError` only when all
`maxRetries + 1` attempts fail; and as soon as an attempt returns a status —
in particular one whose run reached the `error` state — that status is
returned verbatim after exactly that attempt, never retried. -/
theorem pollStatus_retry_spec (io : ℕ → Option Status) (backoff : ℕ → ℕ)
    (maxRetries : ℕ) :
    (∀ k st, k ≤ maxRetries → (∀ i, i < k → io i = none) →
      io k = some st →
      pollStatus io backoff maxRetries =
        (Except.ok st, k + 1, (List.range k).map backoff)) ∧
    ((∀ j, j ≤ maxRetries → io j = none) →
      (pollStatus io backoff maxRetries).1 = Except.error ()) := by
  constructor
  · intro k st hk hbefore hst
    have := pollWithRetry_found io backoff maxRetries 0 k st hk
      (fun i hi => by simpa using hbefore i hi) (by simpa using hst)
    simpa [pollStatus] using this
  · intro hall
    exact pollWithRetry_exhausted io backoff maxRetries 0
      (fun j hj => by simpa using hall j hj)

end DataFlow

namespace Quantum

/-- Amplitudes of the adder circuit lie in ℚ adjoin √2: `ratPart + rtPart·√2`.
Every gate the notebook applies (X, CX, CH, CZ) has its matrix entries in
this ring, so the state vector can be tracked exactly. -/
structure Amp where
  ratPart : ℚ
  rtPart : ℚ
deriving DecidableEq, Repr

def Amp.add (x y : Amp) : Amp := ⟨x.ratPart + y.ratPart, x.rtPart + y.rtPart⟩

def Amp.neg (x : Amp) : Amp := ⟨-x.ratPart, -x.rtPart⟩

def Amp.mul (x y : Amp) : Amp :=
  ⟨x.ratPart * y.ratPart + 2 * x.rtPart * y.rtPart,
   x.ratPart * y.rtPart + x.rtPart * y.ratPart⟩

def Amp.zero : Amp := ⟨0, 0⟩

def Amp.one : Amp := ⟨1, 0⟩

/-- The Hadamard normalisation 1/√2 = √2/2. -/
def invRt2 : Amp := ⟨0, 1/2⟩

/-- A computational-basis vector of the four qubits, as
(q0, q1, q2, q3). -/
abbrev QBasis := Bool × Bool × Bool × Bool

/-- A (possibly unnormalised) state vector of the four-qubit register. -/
abbrev QState := QBasis → Amp

/-- The amplitude-one basis state at `v`. -/
def basisState (v : QBasis) : QState := fun w => if w = v then Amp.one else Amp.zero

/-- Cell 4: `qc = QuantumCircuit(q, c)` starts all qubits in the ground
state, the basis state 0000. -/
def initState : QState := basisState (false, false, false, false)

/-- `qc.x(q[0])`: the X gate on q0 swaps the two basis amplitudes of q0. -/
def xq0 (ψ : QState) : QState := fun v => ψ (!v.1, v.2.1, v.2.2.1, v.2.2.2)

/-- `qc.x(q[1])`: the X gate on q1. -/
def xq1 (ψ : QState) : QState := fun v => ψ (v.1, !v.2.1, v.2.2.1, v.2.2.2)

/-- `qc.cx(q[0], q[2])`: controlled-not with source q0 and target q2 flips
q2 on the basis states where q0 is 1. -/
def cxq0q2 (ψ : QState) : QState := fun v =>
  if v.1 then ψ (v.1, v.2.1, !v.2.2.1, v.2.2.2) else ψ v

/-- `qc.cx(q[1], q[2])`: controlled-not with source q1 and target q2. -/
def cxq1q2 (ψ : QState) : QState := fun v =>
  if v.2.1 then ψ (v.1, v.2.1, !v.2.2.1, v.2.2.2) else ψ v

/-- `qc.cz(q[1], q[3])`: controlled-Z with source q1 negates the amplitude
of the basis states where both q1 and q3 are 1. -/
def czq1q3 (ψ : QState) : QState := fun v =>
  if v.2.1 && v.2.2.2 then (ψ v).neg else ψ v

/-- `qc.ch(q[0], q[3])`: controlled-Hadamard with source q0 and target q3.
Where q0 is 1 it sends the target amplitudes (t0, t1) to
((t0 + t1)/√2, (t0 - t1)/√2); where q0 is 0 it does nothing. -/
def chq0q3 (ψ : QState) : QState := fun v =>
  if v.1 then
    invRt2.mul
      ((ψ (v.1, v.2.1, v.2.2.1, false)).add
        (if v.2.2.2 then (ψ (v.1, v.2.1, v.2.2.1, true)).neg
         else ψ (v.1, v.2.1, v.2.2.1, true)))
  else ψ v

/-- Cell 4's input preparation: an X gate on each qubit that must start in
the excited state. -/
def prepare (a b : Bool) : QState :=
  (if b then xq1 else id) ((if a then xq0 else id) initState)

/-- Cell 5: `qc.cx(q[0], q[2]); qc.cx(q[1], q[2])` — the XOR stage. -/
def xorStage (ψ : QState) : QState := cxq1q2 (cxq0q2 ψ)

/-- Cell 6: `qc.ch(q[0], q[3]); qc.cz(q[1], q[3]); qc.ch(q[0], q[3])` — the
AND stage. -/
def andStage (ψ : QState) : QState := chq0q3 (czq1q3 (chq0q3 ψ))

/-- The full adder circuit on inputs a (q0) and b (q1). -/
def adderCircuit (a b : Bool) : QState := andStage (xorStage (prepare a b))

theorem basisState_ne_zero (v w : QBasis) (h : basisState v w ≠ Amp.zero) :
    w = v := by
  by_cases hw : w = v
  · exact hw
  · exact absurd (by simp [basisState, hw]) h

theorem xorStage_prepare_eq (a b : Bool) :
    xorStage (prepare a b) = basisState (a, b, xor a b, false) := by
  funext v
  obtain ⟨q0, q1, q2, q3⟩ := v
  cases a <;> cases b <;> cases q0 <;> cases q1 <;> cases q2 <;> cases q3 <;>
    simp [xorStage, prepare, cxq0q2, cxq1q2, xq0, xq1, initState, basisState]

set_option maxHeartbeats 1000000 in
theorem adderCircuit_eq (a b : Bool) :
    adderCircuit a b = basisState (a, b, xor a b, a && b) := by
  funext v
  obtain ⟨q0, q1, q2, q3⟩ := v
  cases a <;> cases b <;> cases q0 <;> cases q1 <;> cases q2 <;> cases q3 <;>
    simp [adderCircuit, andStage, xorStage, prepare, chq0q3, czq1q3,
      cxq0q2, cxq1q2, xq0, xq1, initState, basisState, invRt2, Amp.mul,
      Amp.add, Amp.neg, Amp.zero, Amp.one] <;> norm_num

/-- C8: for basis inputs a, b on q0, q1 with q2 starting at 0, the two
CNOTs of cell 5 leave the register in the basis state with q2 = a XOR b, so
measuring q2 yields a XOR b with certainty (every basis state of nonzero
amplitude has q2 = a XOR b). -/
theorem xorStage_computes_xor (a b : Bool) :
    xorStage (prepare a b) = basisState (a, b, xor a b, false) ∧
    ∀ v : QBasis, xorStage (prepare a b) v ≠ Amp.zero → v.2.2.1 = xor a b := by
  refine ⟨xorStage_prepare_eq a b, ?_⟩
  intro v h
  rw [xorStage_prepare_eq a b] at h
  have := basisState_ne_zero _ v h
  subst this
  rfl

/-- C9: for basis inputs a, b on q0, q1 with q3 starting at 0, the
CH/CZ/CH sequence of cell 6 leaves q3 in the basis state a AND b, so
measuring q3 yields a AND b with certainty; in particular for a = b = 1 the
register ends in the basis state q0 q1 q2 q3 = 1 1 0 1 — the simulator's
unique outcome '1011' (read q3 q2 q1 q0). -/
theorem andStage_computes_and (a b : Bool) :
    adderCircuit a b = basisState (a, b, xor a b, a && b) ∧
    (∀ v : QBasis, adderCircuit a b v ≠ Amp.zero → v.2.2.2 = (a && b)) ∧
    adderCircuit true true = basisState (true, true, false, true) := by
  refine ⟨adderCircuit_eq a b, ?_, by simpa using adderCircuit_eq true true⟩
  intro v h
  rw [adderCircuit_eq a b] at h
  have := basisState_ne_zero _ v h
  subst this
  rfl

end Quantum

namespace Tally

/-- The `result_frequencies` dictionary of cell 12, initialised as
`{'00':0, '01':0, '10':0, '11':0}`. -/
structure Frequencies where
  f00 : ℕ
  f01 : ℕ
  f10 : ℕ
  f11 : ℕ
deriving DecidableEq, Repr

/-- One iteration of cell 12's loop body:
`result_frequencies[key[0:2]] = result_frequencies[key[0:2]] + result_counts[key]`.
`none` models the `KeyError` Python would raise if a two-character prefix
were not one of the four initialised keys. -/
def tallyStep (fr : Frequencies) (kv : String × ℕ) : Option Frequencies :=
  let p := kv.1.take 2
  if p = "00" then some { fr with f00 := fr.f00 + kv.2 }
  else if p = "01" then some { fr with f01 := fr.f01 + kv.2 }
  else if p = "10" then some { fr with f10 := fr.f10 + kv.2 }
  else if p = "11" then some { fr with f11 := fr.f11 + kv.2 }
  else none

/-- Cell 12's loop over the entries of `result_counts`. -/
def tallyLoop : Frequencies → List (String × ℕ) → Option Frequencies
  | fr, [] => some fr
  | fr, kv :: rest =>
      match tallyStep fr kv with
      | some fr₂ => tallyLoop fr₂ rest
      | none => none

/-- Cell 12: the tally starting from the all-zero dictionary. -/
def resultFrequencies (counts : List (String × ℕ)) : Option Frequencies :=
  tallyLoop ⟨0, 0, 0, 0⟩ counts

/-- The total of the counts whose key begins with the two-character
prefix p. -/
def prefixSum (counts : List (String × ℕ)) (p : String) : ℕ :=
  ((counts.filter fun kv => kv.1.take 2 = p).map Prod.snd).sum

theorem tallyLoop_spec (counts : List (String × ℕ)) :
    (∀ kv ∈ counts, kv.1.take 2 ∈ (["00", "01", "10", "11"] : List String)) →
    ∀ fr : Frequencies, ∃ fr₂ : Frequencies,
      tallyLoop fr counts = some fr₂ ∧
      fr₂.f00 = fr.f00 + prefixSum counts "00" ∧
      fr₂.f01 = fr.f01 + prefixSum counts "01" ∧
      fr₂.f10 = fr.f10 + prefixSum counts "10" ∧
      fr₂.f11 = fr.f11 + prefixSum counts "11" := by
  induction counts with
  | nil => intro _ fr; exact ⟨fr, rfl, by simp [prefixSum], by simp [prefixSum],
      by simp [prefixSum], by simp [prefixSum]⟩
  | cons kv rest ih =>
      intro h fr
      have hkv : kv.1.take 2 ∈ (["00", "01", "10", "11"] : List String) :=
        h kv (List.mem_cons_self kv rest)
      have hrest : ∀ kv₂ ∈ rest,
          kv₂.1.take 2 ∈ (["00", "01", "10", "11"] : List String) :=
        fun kv₂ hm => h kv₂ (List.mem_cons_of_mem kv hm)
      rcases List.mem_cons.mp hkv with hp | hm
      · rcases ih hrest { fr with f00 := fr.f00 + kv.2 } with
          ⟨fr₂, heq, h00, h01, h10, h11⟩
        simp only [] at h00 h01 h10 h11
        have e0 : prefixSum (kv :: rest) "00" = kv.2 + prefixSum rest "00" := by
          simp [prefixSum, List.filter_cons, hp]
        have e1 : prefixSum (kv :: rest) "01" = prefixSum rest "01" := by
          simp [prefixSum, List.filter_cons, hp]
        have e2 : prefixSum (kv :: rest) "10" = prefixSum rest "10" := by
          simp [prefixSum, List.filter_cons, hp]
        have e3 : prefixSum (kv :: rest) "11" = prefixSum rest "11" := by
          simp [prefixSum, List.filter_cons, hp]
        exact ⟨fr₂, by simp [tallyLoop, tallyStep, hp, heq],
          by omega, by omega, by omega, by omega⟩
      rcases List.mem_cons.mp hm with hp | hm
      · rcases ih hrest { fr with f01 := fr.f01 + kv.2 } with
          ⟨fr₂, heq, h00, h01, h10, h11⟩
        simp only [] at h00 h01 h10 h11
        have e0 : prefixSum (kv :: rest) "00" = prefixSum rest "00" := by
          simp [prefixSum, List.filter_cons, hp]
        have e1 : prefixSum (kv :: rest) "01" = kv.2 + prefixSum rest "01" := by
          simp [prefixSum, List.filter_cons, hp]
        have e2 : prefixSum (kv :: rest) "10" = prefixSum rest "10" := by
          simp [prefixSum, List.filter_cons, hp]
        have e3 : prefixSum (kv :: rest) "11" = prefixSum rest "11" := by
          simp [prefixSum, List.filter_cons, hp]
        exact ⟨fr₂, by simp [tallyLoop, tallyStep, hp, heq],
          by omega, by omega, by omega, by omega⟩
      rcases List.mem_cons.mp hm with hp | hm
      · rcases ih hrest { fr with f10 := fr.f10 + kv.2 } with
          ⟨fr₂, heq, h00, h01, h10, h11⟩
        simp only [] at h00 h01 h10 h11
        have e0 : prefixSum (kv :: rest) "00" = prefixSum rest "00" := by
          simp [prefixSum, List.filter_cons, hp]
        have e1 : prefixSum (kv :: rest) "01" = prefixSum rest "01" := by
          simp [prefixSum, List.filter_cons, hp]
        have e2 : prefixSum (kv :: rest) "10" = kv.2 + prefixSum rest "10" := by
          simp [prefixSum, List.filter_cons, hp]
        have e3 : prefixSum (kv :: rest) "11" = prefixSum rest "11" := by
          simp [prefixSum, List.filter_cons, hp]
        exact ⟨fr₂, by simp [tallyLoop, tallyStep, hp, heq],
          by omega, by omega, by omega, by omega⟩
      have hp : kv.1.take 2 = "11" := by simpa using hm
      rcases ih hrest { fr with f11 := fr.f11 + kv.2 } with
        ⟨fr₂, heq, h00, h01, h10, h11⟩
      simp only [] at h00 h01 h10 h11
      have e0 : prefixSum (kv :: rest) "00" = prefixSum rest "00" := by
        simp [prefixSum, List.filter_cons, hp]
      have e1 : prefixSum (kv :: rest) "01" = prefixSum rest "01" := by
        simp [prefixSum, List.filter_cons, hp]
      have e2 : prefixSum (kv :: rest) "10" = prefixSum rest "10" := by
        simp [prefixSum, List.filter_cons, hp]
      have e3 : prefixSum (kv :: rest) "11" = kv.2 + prefixSum rest "11" := by
        simp [prefixSum, List.filter_cons, hp]
      exact ⟨fr₂, by simp [tallyLoop, tallyStep, hp, heq],
        by omega, by omega, by omega, by omega⟩

theorem prefixSum_partition (counts : List (String × ℕ)) :
    (∀ kv ∈ counts, kv.1.take 2 ∈ (["00", "01", "10", "11"] : List String)) →
    prefixSum counts "00" + prefixSum counts "01" + prefixSum counts "10" +
      prefixSum counts "11" = (counts.map Prod.snd).sum := by
  induction counts with
  | nil => intro _; rfl
  | cons kv rest ih =>
      intro h
      have hkv : kv.1.take 2 ∈ (["00", "01", "10", "11"] : List String) :=
        h kv (List.mem_cons_self kv rest)
      have ih₂ := ih (fun kv₂ hm => h kv₂ (List.mem_cons_of_mem kv hm))
      have hsum : ((kv :: rest).map Prod.snd).sum = kv.2 + (rest.map Prod.snd).sum := by
        simp
      rcases List.mem_cons.mp hkv with hp | hm
      · have e0 : prefixSum (kv :: rest) "00" = kv.2 + prefixSum rest "00" := by
          simp [prefixSum, List.filter_cons, hp]
        have e1 : prefixSum (kv :: rest) "01" = prefixSum rest "01" := by
          simp [prefixSum, List.filter_cons, hp]
        have e2 : prefixSum (kv :: rest) "10" = prefixSum rest "10" := by
          simp [prefixSum, List.filter_cons, hp]
        have e3 : prefixSum (kv :: rest) "11" = prefixSum rest "11" := by
          simp [prefixSum, List.filter_cons, hp]
        omega
      rcases List.mem_cons.mp hm with hp | hm
      · have e0 : prefixSum (kv :: rest) "00" = prefixSum rest "00" := by
          simp [prefixSum, List.filter_cons, hp]
        have e1 : prefixSum (kv :: rest) "01" = kv.2 + prefixSum rest "01" := by
          simp [prefixSum, List.filter_cons, hp]
        have e2 : prefixSum (kv :: rest) "10" = prefixSum rest "10" := by
          simp [prefixSum, List.filter_cons, hp]
        have e3 : prefixSum (kv :: rest) "11" = prefixSum rest "11" := by
          simp [prefixSum, List.filter_cons, hp]
        omega
      rcases List.mem_cons.mp hm with hp | hm
      · have e0 : prefixSum (kv :: rest) "00" = prefixSum rest "00" := by
          simp [prefixSum, List.filter_cons, hp]
        have e1 : prefixSum (kv :: rest) "01" = prefixSum rest "01" := by
          simp [prefixSum, List.filter_cons, hp]
        have e2 : prefixSum (kv :: rest) "10" = kv.2 + prefixSum rest "10" := by
          simp [prefixSum, List.filter_cons, hp]
        have e3 : prefixSum (kv :: rest) "11" = prefixSum rest "11" := by
          simp [prefixSum, List.filter_cons, hp]
        omega
      have hp : kv.1.take 2 = "11" := by simpa using hm
      have e0 : prefixSum (kv :: rest) "00" = prefixSum rest "00" := by
        simp [prefixSum, List.filter_cons, hp]
      have e1 : prefixSum (kv :: rest) "01" = prefixSum rest "01" := by
        simp [prefixSum, List.filter_cons, hp]
      have e2 : prefixSum (kv :: rest) "10" = prefixSum rest "10" := by
        simp [prefixSum, List.filter_cons, hp]
      have e3 : prefixSum (kv :: rest) "11" = kv.2 + prefixSum rest "11" := by
        simp [prefixSum, List.filter_cons, hp]
      omega

/-- C10: on every `result_counts` whose keys begin with one of 00, 01, 10,
11, cell 12's loop succeeds and partitions the total: each of the four
frequencies is the sum over exactly the counts whose key shares that
two-character prefix, and the four frequencies together sum to the total of
all counts. -/
theorem resultFrequencies_partition (counts : List (String × ℕ))
    (h : ∀ kv ∈ counts, kv.1.take 2 ∈ (["00", "01", "10", "11"] : List String)) :
    ∃ fr : Frequencies, resultFrequencies counts = some fr ∧
      fr.f00 = prefixSum counts "00" ∧
      fr.f01 = prefixSum counts "01" ∧
      fr.f10 = prefixSum counts "10" ∧
      fr.f11 = prefixSum counts "11" ∧
      fr.f00 + fr.f01 + fr.f10 + fr.f11 = (counts.map Prod.snd).sum := by
  rcases tallyLoop_spec counts h ⟨0, 0, 0, 0⟩ with ⟨fr, heq, h00, h01, h10, h11⟩
  simp only [Nat.zero_add] at h00 h01 h10 h11
  refine ⟨fr, heq, h00, h01, h10, h11, ?_⟩
  rw [h00, h01, h10, h11]
  exact prefixSum_partition counts h

/-- The outcome counts of the notebook's hardware run (cell 11's
`result_counts`, tallied to `{'00': 263, '10': 590, '01': 91, '11': 80}`
in cell 12). -/
def sampleCounts : List (String × ℕ) :=
  [("0011", 263), ("1011", 590), ("0111", 91), ("1111", 80)]

/-- Witness for C10 at the concrete counts of the notebook's hardware
run. -/
theorem resultFrequencies_partition_witness :
    ∃ fr : Frequencies, resultFrequencies sampleCounts = some fr ∧
      fr.f00 = prefixSum sampleCounts "00" ∧
      fr.f01 = prefixSum sampleCounts "01" ∧
      fr.f10 = prefixSum sampleCounts "10" ∧
      fr.f11 = prefixSum sampleCounts "11" ∧
      fr.f00 + fr.f01 + fr.f10 + fr.f11 = (sampleCounts.map Prod.snd).sum :=
  resultFrequencies_partition sampleCounts (by decide)

end Tally
